import Mathlib

/-
Shallow embedding of the currency pallet in src/pallets/template/src/lib.rs.

The pallet stores a map `BalanceOf : AccountId -> Option<u128>` and a scalar
`TotalIssuance : Option<u128>`, and offers two dispatchables:

  mint_unsafe(dest, amount):
    ensure!(amount >= T::min_amount(), BelowMinAmount);
    BalanceOf::mutate(dest, |b| *b = Some(b.unwrap_or(0) + amount));
    TotalIssuance::mutate(|t| *t = Some(t.unwrap_or(0) + amount));
    deposit_event(Mint { to: dest, amount });

  transfer(dest, amount)  (sender = signed origin):
    let sender_balance = BalanceOf::get(&sender).ok_or(NonExistentAccount)?;
    let remainder = sender_balance.checked_sub(amount).ok_or(InsufficientBalance)?;
    BalanceOf::mutate(dest, |b| *b = Some(b.unwrap_or(0) + amount));
    BalanceOf::insert(&sender, remainder);
    deposit_event(Transfer { from: sender, to: dest, amount });

Balances are u128.  The additions use the plain `+` operator (not checked_add);
under the default semantics of a release build this wraps modulo 2^128, which
the embedding makes explicit with `wadd`.  The subtraction is `checked_sub` and
is embedded as an Option-returning checked subtraction.  The storage map is
embedded as an association list with overwrite-or-append insertion; the test
runtime instantiates AccountId = u64, embedded here as Nat.  The signed-origin
check is resolved by the host and is outside the accounting logic, so the
embedded calls take the already-resolved sender directly.  A dispatchable
deposits exactly one event on its success path, so the embedding returns the
deposited event inside the `ok` constructor of the call result.
-/

namespace Pallet

/-- Account identifier; the test runtime uses u64, modelled as Nat. -/
abbrev AccountId : Type := Nat

/-- Balance = u128 in the source; modelled as Nat with explicit wrap. -/
abbrev Balance : Type := Nat

/-- Modulus of the u128 balance type. -/
def u128Mod : Nat := 2 ^ 128

/-- Wrapping u128 addition: the plain `+` of the source under release
semantics (no overflow checks), made explicit as addition modulo 2^128. -/
def wadd (a b : Nat) : Nat := (a + b) % u128Mod

/-- The `checked_sub` of u128: `some (a - b)` when `b <= a`, else `none`. -/
def checkedSub (a b : Nat) : Option Nat := if b ≤ a then some (a - b) else none

/-- The pallet errors (`Error<T>` in the source). -/
inductive Err : Type where
  | InsufficientBalance : Err
  | NonExistentAccount : Err
  | BelowMinAmount : Err
deriving DecidableEq

/-- The pallet events (`Event<T>` in the source); the spec calls them
`Credited` and `Transferred`. -/
inductive Event : Type where
  | Mint : (dest : AccountId) → (amount : Balance) → Event
  | Transfer : (sender : AccountId) → (dest : AccountId) → (amount : Balance) → Event
deriving DecidableEq

/-- Result of one dispatch: `Ok(())` plus the single deposited event, or the
dispatch error. -/
inductive CallResult : Type where
  | ok : Event → CallResult
  | err : Err → CallResult
deriving DecidableEq

/-- True exactly on the error constructor. -/
def isErr : CallResult → Bool
  | CallResult.ok _ => false
  | CallResult.err _ => true

/-- Lookup in the storage map: first entry with the given key (`StorageMap::get`). -/
def getEntry : List (AccountId × Balance) → AccountId → Option Balance
  | [], _ => none
  | (k, v) :: rest, a => if k = a then some v else getEntry rest a

/-- Overwrite-or-append insertion (`StorageMap::insert`, and the write half of
`StorageMap::mutate`): replaces the entry for the key if present, else appends. -/
def setEntry : List (AccountId × Balance) → AccountId → Balance → List (AccountId × Balance)
  | [], a, b => [(a, b)]
  | (k, v) :: rest, a, b => if k = a then (a, b) :: rest else (k, v) :: setEntry rest a b

/-- The pallet storage: the `BalanceOf` map and the `TotalIssuance` value.
Both are `Option`-valued exactly as in the source: an absent balance key and an
absent issuance are distinct from stored zeroes. -/
structure Store : Type where
  balances : List (AccountId × Balance)
  totalIssuance : Option Balance
deriving DecidableEq

/-- `BalanceOf::<T>::get(a)`. -/
def getBal (st : Store) (a : AccountId) : Option Balance := getEntry st.balances a

/-- The store of a fresh test externality: no balances, no issuance. -/
def emptyStore : Store := { balances := [], totalIssuance := none }

/-- Sum of all stored account balances (the quantity the spec invariant
compares with `TotalIssuance`). -/
def sumBalances (st : Store) : Nat := (st.balances.map Prod.snd).sum

/-- Embedding of `mint_unsafe` (named `mint` here), after origin resolution.
Steps in source order: the minimum-amount guard, the `BalanceOf` mutate with
`b.unwrap_or(0) + amount`, the `TotalIssuance` mutate with
`t.unwrap_or(0) + amount`, then the single `Mint` event. -/
def mint (minAmount : Balance) (st : Store) (dest : AccountId) (amount : Balance) :
    Store × CallResult :=
  if amount ≥ minAmount then
    let st1 : Store :=
      { st with balances := setEntry st.balances dest (wadd ((getBal st dest).getD 0) amount) }
    let st2 : Store :=
      { st1 with totalIssuance := some (wadd (st1.totalIssuance.getD 0) amount) }
    (st2, CallResult.ok (Event.Mint dest amount))
  else
    (st, CallResult.err Err.BelowMinAmount)

/-- Embedding of `transfer`, after origin resolution (`sender` is the signed
origin).  Steps in source order: sender-balance lookup (else
`NonExistentAccount`), `checked_sub` (else `InsufficientBalance`), the dest
`BalanceOf` mutate with `b.unwrap_or(0) + amount`, the sender `BalanceOf`
insert of the remainder, then the single `Transfer` event. -/
def transfer (st : Store) (sender dest : AccountId) (amount : Balance) :
    Store × CallResult :=
  match getBal st sender with
  | none => (st, CallResult.err Err.NonExistentAccount)
  | some sender_balance =>
    match checkedSub sender_balance amount with
    | none => (st, CallResult.err Err.InsufficientBalance)
    | some remainder =>
      let st1 : Store :=
        { st with balances := setEntry st.balances dest (wadd ((getBal st dest).getD 0) amount) }
      let st2 : Store :=
        { st1 with balances := setEntry st1.balances sender remainder }
      (st2, CallResult.ok (Event.Transfer sender dest amount))

/-- One dispatchable call with its arguments. -/
inductive Op : Type where
  | mint : (dest : AccountId) → (amount : Balance) → Op
  | xfer : (sender : AccountId) → (dest : AccountId) → (amount : Balance) → Op
deriving DecidableEq

/-- Dispatch one call against the store. -/
def applyOp (minAmount : Balance) (st : Store) : Op → Store × CallResult
  | Op.mint d a => mint minAmount st d a
  | Op.xfer s d a => transfer st s d a

/-- Run a sequence of calls, keeping each call's resulting store (an erroring
call leaves the store unchanged, see theorem for C4). -/
def runOps (minAmount : Balance) (st : Store) (ops : List Op) : Store :=
  ops.foldl (fun s op => (applyOp minAmount s op).fst) st

/-- Whether every call in the sequence succeeds when run in order. -/
def allOk (minAmount : Balance) (st : Store) : List Op → Bool
  | [] => true
  | op :: rest =>
    !(isErr (applyOp minAmount st op).snd) && allOk minAmount (applyOp minAmount st op).fst rest

end Pallet

namespace Pallet

/-- Reading back a key after an overwrite-or-append insertion: the written key
returns the written value, every other key is untouched. -/
theorem getEntry_setEntry (l : List (AccountId × Balance)) (a : AccountId) (b : Balance)
    (c : AccountId) :
    getEntry (setEntry l a b) c = if c = a then some b else getEntry l c := by
  induction l with
  | nil =>
    rcases eq_or_ne c a with h | h
    · subst h
      simp [setEntry, getEntry]
    · simp [setEntry, getEntry, h, Ne.symm h]
  | cons hd rest ih =>
    obtain ⟨k, v⟩ := hd
    by_cases hk : k = a
    · subst hk
      rcases eq_or_ne c k with hc | hc
      · subst hc
        simp [setEntry, getEntry]
      · simp [setEntry, getEntry, hc, Ne.symm hc]
    · rcases eq_or_ne k c with hkc | hkc
      · subst hkc
        simp [setEntry, getEntry, hk]
      · simp [setEntry, getEntry, hk, hkc, ih]

/-- C1: the claimed global invariant `TotalIssuance = sum of all stored
balances` is broken by the code on a sequence of two successful calls: after
`mint_unsafe(1, 100)` followed by the self-transfer `transfer(1, 1, 50)` (both
return Ok), issuance is 100 but the only stored balance is 50 — the later
sender write overwrites the dest credit of the self-transfer, destroying 50
units without touching issuance. -/
theorem c1_invariant_broken_by_self_transfer :
    allOk 1 emptyStore [Op.mint 1 100, Op.xfer 1 1 50] = true
      ∧ (runOps 1 emptyStore [Op.mint 1 100, Op.xfer 1 1 50]).totalIssuance = some 100
      ∧ sumBalances (runOps 1 emptyStore [Op.mint 1 100, Op.xfer 1 1 50]) = 50 := by
  decide

/-- C2: a self-transfer does not leave the balance unchanged: with
`BalanceOf(1) = 100`, `transfer(1, 1, 50)` succeeds but leaves account 1 at
50, not 100 — the dest mutate writes 150, then the sender insert overwrites it
with the remainder 50. -/
theorem c2_self_transfer_changes_balance :
    (transfer { balances := [(1, 100)], totalIssuance := some 100 } 1 1 50).snd
        = CallResult.ok (Event.Transfer 1 1 50)
      ∧ getBal (transfer { balances := [(1, 100)], totalIssuance := some 100 } 1 1 50).fst 1
          = some 50
      ∧ getBal (transfer { balances := [(1, 100)], totalIssuance := some 100 } 1 1 50).fst 1
          ≠ some 100 := by
  decide

/-- C3: the additions in `mint_unsafe` are the plain `+`, not a checked add:
with `BalanceOf(1) = 2^128 - 1` and issuance `2^128 - 1`, `mint_unsafe(1, 1)`
does not halt — it returns Ok and silently wraps both the balance and the
issuance to 0 modulo 2^128. -/
theorem c3_unchecked_add_wraps :
    (mint 1 { balances := [(1, u128Mod - 1)], totalIssuance := some (u128Mod - 1) } 1 1).snd
        = CallResult.ok (Event.Mint 1 1)
      ∧ getBal
          (mint 1 { balances := [(1, u128Mod - 1)], totalIssuance := some (u128Mod - 1) } 1 1).fst
          1 = some 0
      ∧ (mint 1 { balances := [(1, u128Mod - 1)], totalIssuance := some (u128Mod - 1) } 1 1).fst.totalIssuance
          = some 0 := by
  decide

/-- C4: every call of `mint_unsafe` or `transfer` that returns an error leaves
the whole store — every balance entry and the total issuance — unchanged: all
precondition checks happen before any write. -/
theorem c4_atomic_on_error (minAmount : Balance) (st : Store) (op : Op)
    (h : isErr (applyOp minAmount st op).snd = true) :
    (applyOp minAmount st op).fst = st := by
  cases op with
  | mint d a =>
    by_cases hge : a ≥ minAmount
    · simp [applyOp, mint, hge, isErr] at h
    · simp [applyOp, mint, hge]
  | xfer s d a =>
    cases hsb : getBal st s with
    | none => simp [applyOp, transfer, hsb]
    | some sb =>
      by_cases hle : a ≤ sb
      · simp [applyOp, transfer, hsb, checkedSub, hle, isErr] at h
      · simp [applyOp, transfer, hsb, checkedSub, hle]

/-- C4 witness: `mint_unsafe(0, 0)` with minimum 1 on the empty store errors,
and the theorem yields that the store is unchanged. -/
theorem c4_atomic_on_error_witness :
    isErr (applyOp 1 emptyStore (Op.mint 0 0)).snd = true
      ∧ (applyOp 1 emptyStore (Op.mint 0 0)).fst = emptyStore :=
  ⟨by decide, c4_atomic_on_error 1 emptyStore (Op.mint 0 0) (by decide)⟩

/-- C5: `transfer` rejects with `NonExistentAccount` exactly when the sender
key is absent (a stored zero is present, hence not this error); otherwise it
rejects with `InsufficientBalance` exactly when the amount exceeds the stored
sender balance; and in every rejection case the store is unchanged. -/
theorem c5_transfer_rejection_conditions (st : Store) (s d : AccountId) (a : Balance) :
    ((transfer st s d a).snd = CallResult.err Err.NonExistentAccount ↔ getBal st s = none)
      ∧ (∀ b, getBal st s = some b →
          ((transfer st s d a).snd = CallResult.err Err.InsufficientBalance ↔ b < a))
      ∧ (isErr (transfer st s d a).snd = true → (transfer st s d a).fst = st) := by
  cases hsb : getBal st s with
  | none =>
    refine ⟨by simp [transfer, hsb], ?_, by simp [transfer, hsb]⟩
    intro b hb
    exact absurd hb (by simp)
  | some sb =>
    by_cases hle : a ≤ sb
    · refine ⟨by simp [transfer, hsb, checkedSub, hle], ?_, ?_⟩
      · intro b hb
        obtain rfl : sb = b := Option.some.inj hb
        constructor
        · intro hcon
          exact absurd hcon (by simp [transfer, hsb, checkedSub, hle])
        · intro hcon
          exact absurd hle (Nat.not_le.mpr hcon)
      · simp [transfer, hsb, checkedSub, hle, isErr]
    · refine ⟨by simp [transfer, hsb, checkedSub, hle], ?_,
        by simp [transfer, hsb, checkedSub, hle]⟩
      intro b hb
      obtain rfl : sb = b := Option.some.inj hb
      have hlt : sb < a := Nat.not_le.mp hle
      simp [transfer, hsb, checkedSub, hle, hlt]

/-- C5 witness: with only `BalanceOf(1) = 100` stored, `transfer(1, 2, 101)`
rejects with `InsufficientBalance` and `transfer(3, 2, 1)` rejects with
`NonExistentAccount`. -/
theorem c5_transfer_rejection_conditions_witness :
    (transfer { balances := [(1, 100)], totalIssuance := some 100 } 1 2 101).snd
        = CallResult.err Err.InsufficientBalance
      ∧ (transfer { balances := [(1, 100)], totalIssuance := some 100 } 3 2 1).snd
          = CallResult.err Err.NonExistentAccount :=
  ⟨((c5_transfer_rejection_conditions { balances := [(1, 100)], totalIssuance := some 100 }
        1 2 101).2.1 100 (by decide)).mpr (by decide),
    (c5_transfer_rejection_conditions { balances := [(1, 100)], totalIssuance := some 100 }
        3 2 1).1.mpr (by decide)⟩

/-- C6: `mint_unsafe` rejects with `BelowMinAmount` exactly when the amount is
below the configured minimum, in which case the store is unchanged; an amount
equal to the minimum always succeeds. -/
theorem c6_minimum_amount (minAmount : Balance) (st : Store) (d : AccountId) (a : Balance) :
    ((mint minAmount st d a).snd = CallResult.err Err.BelowMinAmount ↔ a < minAmount)
      ∧ (a < minAmount → (mint minAmount st d a).fst = st)
      ∧ (a = minAmount → (mint minAmount st d a).snd = CallResult.ok (Event.Mint d a)) := by
  by_cases hge : a ≥ minAmount
  · have hnlt : ¬a < minAmount := Nat.not_lt.mpr hge
    refine ⟨?_, ?_, ?_⟩
    · simp [mint, hge, hnlt]
    · intro hlt
      exact absurd hlt hnlt
    · intro he
      simp [mint, hge]
  · have hlt : a < minAmount := Nat.not_le.mp hge
    refine ⟨?_, ?_, ?_⟩
    · simp [mint, hge, hlt]
    · intro _
      simp [mint, hge]
    · intro he
      exact absurd (he ▸ Nat.le_refl a) hge

/-- C6 witness: with minimum 1, `mint_unsafe(2, 0)` rejects with
`BelowMinAmount` leaving the empty store unchanged, and `mint_unsafe(2, 1)`
succeeds. -/
theorem c6_minimum_amount_witness :
    (mint 1 emptyStore 2 0).snd = CallResult.err Err.BelowMinAmount
      ∧ (mint 1 emptyStore 2 0).fst = emptyStore
      ∧ (mint 1 emptyStore 2 1).snd = CallResult.ok (Event.Mint 2 1) :=
  ⟨(c6_minimum_amount 1 emptyStore 2 0).1.mpr (by decide),
    (c6_minimum_amount 1 emptyStore 2 0).2.1 (by decide),
    (c6_minimum_amount 1 emptyStore 2 1).2.2 (by decide)⟩

/-- C7 counterexample: minting 5 onto a balance of `2^128 - 1` succeeds but
does not increase the balance by 5 — the unchecked add wraps it to 4. -/
theorem c7_mint_exact_counterexample :
    (mint 1 { balances := [(1, u128Mod - 1)], totalIssuance := some (u128Mod - 1) } 1 5).snd
        = CallResult.ok (Event.Mint 1 5)
      ∧ getBal
          (mint 1 { balances := [(1, u128Mod - 1)], totalIssuance := some (u128Mod - 1) } 1 5).fst
          1 = some 4
      ∧ getBal
          (mint 1 { balances := [(1, u128Mod - 1)], totalIssuance := some (u128Mod - 1) } 1 5).fst
          1 ≠ some (u128Mod - 1 + 5) := by
  decide

/-- C7 (amended): when the amount meets the minimum and neither the dest
balance nor the issuance addition overflows u128, `mint_unsafe` succeeds with
the single event `Mint {dest, amount}` (the spec's `Credited`), increases the
dest balance by exactly the amount (absent treated as zero), increases the
issuance by exactly the amount, and touches no other balance. -/
theorem c7_mint_exact_without_overflow (minAmount : Balance) (st : Store) (d : AccountId)
    (a : Balance) (h1 : minAmount ≤ a) (h2 : (getBal st d).getD 0 + a < u128Mod)
    (h3 : st.totalIssuance.getD 0 + a < u128Mod) :
    (mint minAmount st d a).snd = CallResult.ok (Event.Mint d a)
      ∧ getBal (mint minAmount st d a).fst d = some ((getBal st d).getD 0 + a)
      ∧ (mint minAmount st d a).fst.totalIssuance = some (st.totalIssuance.getD 0 + a)
      ∧ (∀ c, c ≠ d → getBal (mint minAmount st d a).fst c = getBal st c) := by
  have hge : a ≥ minAmount := h1
  refine ⟨by simp [mint, hge], ?_, ?_, ?_⟩
  · simp only [mint, hge, if_pos]
    show getEntry (setEntry st.balances d (wadd ((getBal st d).getD 0) a)) d = _
    rw [getEntry_setEntry]
    simp [wadd, Nat.mod_eq_of_lt h2]
  · simp only [mint, hge, if_pos]
    show some (wadd (st.totalIssuance.getD 0) a) = _
    simp [wadd, Nat.mod_eq_of_lt h3]
  · intro c hc
    simp only [mint, hge, if_pos]
    show getEntry (setEntry st.balances d (wadd ((getBal st d).getD 0) a)) c = _
    rw [getEntry_setEntry]
    simp [hc]
    rfl

/-- C7 witness: minting 100 (minimum 1) onto the empty store succeeds. -/
theorem c7_mint_exact_without_overflow_witness :
    (1 : Balance) ≤ 100
      ∧ (mint 1 emptyStore 1 100).snd = CallResult.ok (Event.Mint 1 100) :=
  ⟨by decide,
    (c7_mint_exact_without_overflow 1 emptyStore 1 100 (by decide) (by decide) (by decide)).1⟩

/-- C8 counterexample: the self-transfer `transfer(2, 2, 30)` from a stored
balance of 70 succeeds but leaves the account at 40, so the dest balance is
not increased by the amount. -/
theorem c8_transfer_exact_counterexample :
    (transfer { balances := [(2, 70)], totalIssuance := some 70 } 2 2 30).snd
        = CallResult.ok (Event.Transfer 2 2 30)
      ∧ getBal (transfer { balances := [(2, 70)], totalIssuance := some 70 } 2 2 30).fst 2
          = some 40
      ∧ getBal (transfer { balances := [(2, 70)], totalIssuance := some 70 } 2 2 30).fst 2
          ≠ some (70 + 30) := by
  decide

/-- C8 (amended): for distinct sender and dest, when the sender holds at least
the amount and the dest addition does not overflow u128, `transfer` succeeds
with the single event `Transfer {sender, dest, amount}` (the spec's
`Transferred`), decreases the sender balance by exactly the amount, increases
the dest balance by exactly the amount (absent treated as zero), leaves the
issuance unchanged, and touches no other balance. -/
theorem c8_transfer_exact_without_overflow (st : Store) (s d : AccountId) (a b : Balance)
    (hne : s ≠ d) (hs : getBal st s = some b) (hle : a ≤ b)
    (hov : (getBal st d).getD 0 + a < u128Mod) :
    (transfer st s d a).snd = CallResult.ok (Event.Transfer s d a)
      ∧ getBal (transfer st s d a).fst s = some (b - a)
      ∧ getBal (transfer st s d a).fst d = some ((getBal st d).getD 0 + a)
      ∧ (transfer st s d a).fst.totalIssuance = st.totalIssuance
      ∧ (∀ c, c ≠ s → c ≠ d → getBal (transfer st s d a).fst c = getBal st c) := by
  refine ⟨by simp [transfer, hs, checkedSub, hle], ?_, ?_, ?_, ?_⟩
  · simp only [transfer, hs, checkedSub, hle, if_pos]
    show getEntry (setEntry (setEntry st.balances d (wadd ((getBal st d).getD 0) a)) s (b - a)) s
        = _
    rw [getEntry_setEntry]
    simp
  · simp only [transfer, hs, checkedSub, hle, if_pos]
    show getEntry (setEntry (setEntry st.balances d (wadd ((getBal st d).getD 0) a)) s (b - a)) d
        = _
    rw [getEntry_setEntry, getEntry_setEntry]
    simp [Ne.symm hne, wadd, Nat.mod_eq_of_lt hov]
  · simp [transfer, hs, checkedSub, hle]
  · intro c hcs hcd
    simp only [transfer, hs, checkedSub, hle, if_pos]
    show getEntry (setEntry (setEntry st.balances d (wadd ((getBal st d).getD 0) a)) s (b - a)) c
        = _
    rw [getEntry_setEntry, getEntry_setEntry]
    simp [hcs, hcd]
    rfl

/-- C8 witness: with `BalanceOf(1) = 100`, `transfer(1, 2, 40)` succeeds. -/
theorem c8_transfer_exact_without_overflow_witness :
    (40 : Balance) ≤ 100
      ∧ (transfer { balances := [(1, 100)], totalIssuance := some 100 } 1 2 40).snd
          = CallResult.ok (Event.Transfer 1 2 40) :=
  ⟨by decide,
    (c8_transfer_exact_without_overflow { balances := [(1, 100)], totalIssuance := some 100 }
        1 2 40 100 (by decide) (by decide) (by decide) (by decide)).1⟩

/-- C9: `transfer` has no minimum-amount floor: whenever the sender key is
stored, a transfer of 0 succeeds for any configured minimum (including
minimums above 0, which only constrain `mint_unsafe`). -/
theorem c9_transfer_no_minimum (minAmount : Balance) (st : Store) (s d : AccountId)
    (b : Balance) (h : getBal st s = some b) :
    (applyOp minAmount st (Op.xfer s d 0)).snd = CallResult.ok (Event.Transfer s d 0) := by
  simp [applyOp, transfer, h, checkedSub]

/-- C9 witness: with minimum 7 and `BalanceOf(1) = 5`, `transfer(1, 2, 0)`
succeeds even though `0 < 7`. -/
theorem c9_transfer_no_minimum_witness :
    getBal { balances := [(1, 5)], totalIssuance := some 5 } 1 = some 5
      ∧ (applyOp 7 { balances := [(1, 5)], totalIssuance := some 5 } (Op.xfer 1 2 0)).snd
          = CallResult.ok (Event.Transfer 1 2 0) :=
  ⟨by decide,
    c9_transfer_no_minimum 7 { balances := [(1, 5)], totalIssuance := some 5 } 1 2 5 (by decide)⟩

/-- C10: no call ever removes a stored account key, and transferring the whole
stored balance to a distinct dest leaves the sender stored as `Some 0` —
present, and so distinct from the absent never-credited state. -/
theorem c10_keys_never_removed :
    (∀ (minAmount : Balance) (st : Store) (op : Op) (a : AccountId),
        (getBal st a).isSome = true → (getBal (applyOp minAmount st op).fst a).isSome = true)
      ∧ (∀ (st : Store) (s d : AccountId) (b : Balance), s ≠ d → getBal st s = some b →
          (transfer st s d b).snd = CallResult.ok (Event.Transfer s d b)
            ∧ getBal (transfer st s d b).fst s = some 0) := by
  constructor
  · intro minAmount st op a h
    cases op with
    | mint d x =>
      by_cases hge : x ≥ minAmount
      · simp only [applyOp, mint, hge, if_pos]
        show (getEntry (setEntry st.balances d (wadd ((getBal st d).getD 0) x)) a).isSome = true
        rw [getEntry_setEntry]
        rcases eq_or_ne a d with rfl | had
        · simp
        · simpa [had] using h
      · simpa [applyOp, mint, hge] using h
    | xfer s d x =>
      cases hsb : getBal st s with
      | none => simpa [applyOp, transfer, hsb] using h
      | some sb =>
        by_cases hle : x ≤ sb
        · simp only [applyOp, transfer, hsb, checkedSub, hle, if_pos]
          show (getEntry
              (setEntry (setEntry st.balances d (wadd ((getBal st d).getD 0) x)) s (sb - x))
              a).isSome = true
          rw [getEntry_setEntry, getEntry_setEntry]
          rcases eq_or_ne a s with rfl | has
          · simp
          · rcases eq_or_ne a d with rfl | had
            · simp [has]
            · simpa [has, had] using h
        · simpa [applyOp, transfer, hsb, checkedSub, hle] using h
  · intro st s d b hne hs
    refine ⟨by simp [transfer, hs, checkedSub], ?_⟩
    simp only [transfer, hs, checkedSub, Nat.le_refl, if_pos]
    show getEntry (setEntry (setEntry st.balances d (wadd ((getBal st d).getD 0) b)) s (b - b)) s
        = _
    rw [getEntry_setEntry]
    simp

/-- C10 witness: minting onto a store keeps the existing key for account 3,
and transferring the whole balance of account 1 to account 2 leaves account 1
stored as `Some 0`. -/
theorem c10_keys_never_removed_witness :
    (getBal (applyOp 1 { balances := [(3, 4)], totalIssuance := some 4 } (Op.mint 3 2)).fst
        3).isSome = true
      ∧ getBal (transfer { balances := [(1, 5)], totalIssuance := some 5 } 1 2 5).fst 1
          = some 0 :=
  ⟨c10_keys_never_removed.1 1 { balances := [(3, 4)], totalIssuance := some 4 } (Op.mint 3 2) 3
      (by decide),
    (c10_keys_never_removed.2 { balances := [(1, 5)], totalIssuance := some 5 } 1 2 5
        (by decide) (by decide)).2⟩

